import Mathlib

/-!
Verification of the Elasticsearch foreign-data-wrapper core
(`pg_es_fdw/_es_query.py` and `pg_es_fdw/__init__.py`).

The Python code is shallowly embedded: JSON documents become the `Json`
inductive, Python dicts become insertion-ordered association lists,
fallible dict/attribute accesses become `Except PyErr` computations, and
the stateful pagination loops become explicit recursions over the list of
responses delivered by the engine, returning both the yielded rows and the
continuation requests that were issued.
-/

set_option autoImplicit false

namespace PgEsFdw

/-- JSON values, the data handled by the wrapper.  Objects are
insertion-ordered association lists, matching Python dict semantics.
A Python `None` is `Json.null`. -/
inductive Json where
  | null
  | bool (b : Bool)
  | num (n : Int)
  | str (s : String)
  | arr (elems : List Json)
  | obj (fields : List (String × Json))

/-- Python exceptions that the embedded code can raise. -/
inductive PyErr where
  | keyError (k : String)
  | attributeError
  | typeError
  | transportError
  | noMoreResponses
  deriving DecidableEq

/-- Python dict assignment `d[k] = v`: if the key is present its value is
updated in place (keeping its position), otherwise the pair is appended. -/
def dictSet {α : Type} (d : List (String × α)) (k : String) (v : α) : List (String × α) :=
  if d.any (fun p => p.1 == k) then
    d.map (fun p => if p.1 == k then (k, v) else p)
  else
    d ++ [(k, v)]

/-- Python dict subscript `d[k]`: raises `KeyError` when absent. -/
def pyLookup {α : Type} (d : List (String × α)) (k : String) : Except PyErr α :=
  match d.find? (fun p => p.1 == k) with
  | some p => .ok p.2
  | none => .error (.keyError k)

/-- Python dict lookup with default, `d.get(k, dflt)`. -/
def pyGetD {α : Type} (d : List (String × α)) (k : String) (dflt : α) : α :=
  match d.find? (fun p => p.1 == k) with
  | some p => p.2
  | none => dflt

/-- Subscript on a JSON value, `j[k]`: only objects support it. -/
def jsonGetField (j : Json) (k : String) : Except PyErr Json :=
  match j with
  | .obj d => pyLookup d k
  | _ => .error .typeError

/-- A Python list comprehension `[f x for x in l]` evaluated left to right;
the first raised exception aborts the whole comprehension. -/
def exList {α β : Type} (f : α → Except PyErr β) : List α → Except PyErr (List β)
  | [] => .ok []
  | a :: l => do
    let b ← f a
    let bs ← exList f l
    .ok (b :: bs)

/-! ## The qualifier compiler (`pg_es_fdw/_es_query.py`) -/

/-- `_RANGE_OPS` from `_es_query.py`. -/
def _RANGE_OPS : List (String × String) :=
  [(">", "gt"), (">=", "gte"), ("<", "lt"), ("<=", "lte")]

/-- `_PG_TO_ES_AGG_FUNCS` from `_es_query.py`; `count.*` is mapped to
Python `None`, embedded as `Option.none`. -/
def _PG_TO_ES_AGG_FUNCS : List (String × Option String) :=
  [("avg", some "avg"), ("max", some "max"), ("min", some "min"),
   ("sum", some "sum"), ("count", some "value_count"), ("count.*", none)]

/-- A Multicorn qualifier as consumed by `_qual_to_es`: either a scalar
qualifier (`field op value`) or a list qualifier
(`field op ANY/ALL (values)`); for the latter the stored operator is the
underlying scalar operator `qual.operator[0]` and `isAny` records whether
`qual.list_any_or_all == ANY`. -/
inductive MQual where
  | base (field_name : String) (operator : String) (value : Json)
  | list (field_name : String) (operator : String) (isAny : Bool) (values : List Json)

/-- `qual.field_name`. -/
def MQual.field_name : MQual → String
  | .base f _ _ => f
  | .list f _ _ _ => f

/-- Python `s.replace("%", "*")`: both arguments are single characters, so
the replacement is a character-wise map. -/
def replacePct (s : String) : String :=
  String.mk (s.data.map (fun c => if c == '%' then '*' else c))

/-- `_base_qual_to_es(col, op, value, column_map)` from `_es_query.py`.
The only fallible branch is `~~` (LIKE), where Python calls
`value.replace` — an `AttributeError` unless the value is a string. -/
def _base_qual_to_es (col op : String) (value : Json)
    (column_map : Option (List (String × String))) : Except PyErr Json :=
  let col := match column_map with
    | some m => pyGetD m col col
    | none => col
  match value with
  | .null =>
    if op == "=" then
      .ok (.obj [("bool", .obj [("must_not", .obj [("exists", .obj [("field", .str col)])])])])
    else if op == "<>" || op == "!=" then
      .ok (.obj [("exists", .obj [("field", .str col)])])
    else
      .ok (.obj [("match_all", .obj [])])
  | v =>
    match (_RANGE_OPS.find? (fun p => p.1 == op)).map Prod.snd with
    | some bound => .ok (.obj [("range", .obj [(col, .obj [(bound, v)])])])
    | none =>
      if op == "=" then
        .ok (.obj [("term", .obj [(col, v)])])
      else if op == "<>" || op == "!=" then
        .ok (.obj [("bool", .obj [("must_not", .obj [("term", .obj [(col, v)])])])])
      else if op == "~~" then
        match v with
        | .str s => .ok (.obj [("wildcard", .obj [(col, .str (replacePct s))])])
        | _ => .error .attributeError
      else
        .ok (.obj [("match_all", .obj [])])

/-- `_qual_to_es(qual, column_map)` from `_es_query.py`. -/
def _qual_to_es (q : MQual) (column_map : Option (List (String × String))) : Except PyErr Json :=
  match q with
  | .list f op isAny vs =>
    if isAny then do
      let frags ← exList (fun v => _base_qual_to_es f op v column_map) vs
      .ok (.obj [("bool", .obj [("should", .arr frags)])])
    else do
      let frags ← exList (fun v => _base_qual_to_es f op v column_map) vs
      .ok (.obj [("bool", .obj [("must", .arr frags)])])
  | .base f op v => _base_qual_to_es f op v column_map

/-- One entry of the aggregation spec: `{"function": ..., "column": ...}`. -/
structure AggProps where
  function : String
  column : String

/-- The dict key used for one attached aggregation operator.  Python uses
the looked-up value directly as a dict key; for `count.*` that value is
`None`, which the JSON encoder on the wire renders as the key `"null"`. -/
def aggFuncKey : Option String → String
  | some f => f
  | none => "null"

/-- The `aggs_query` dict comprehension inside `quals_to_es`: one
aggregation operator per output name other than `count.*`, keyed by the
looked-up engine primitive (`KeyError` for an unknown function). -/
def buildAggsQuery (aggList : List (String × AggProps)) : Except PyErr (List (String × Json)) :=
  exList
    (fun p => do
      let f ← pyLookup _PG_TO_ES_AGG_FUNCS p.2.function
      pure (p.1, Json.obj [(aggFuncKey f, .obj [("field", .str p.2.column)])]))
    (aggList.filter (fun p => p.1 != "count.*"))

/-- The `group_query`'s `group_buckets` body before aggregations are
nested: one composite source per group column, in order. -/
def groupBase (cols : List String) : List (String × Json) :=
  [("composite", .obj [("sources",
    .arr (cols.map (fun c => Json.obj [(c, .obj [("terms", .obj [("field", .str c)])])])))])]

/-- `quals_to_es(quals, aggs, group_clauses, ignore_columns, column_map)`
from `_es_query.py`.  `aggs` is an insertion-ordered dict, embedded as a
list of `(output name, props)` pairs; `group_clauses` is the ordered
column list or Python `None`. -/
def quals_to_es (quals : List MQual) (aggs : Option (List (String × AggProps)))
    (group_clauses : Option (List String)) (ignore_columns : List String)
    (column_map : Option (List (String × String))) : Except PyErr Json := do
  let must ← exList (fun q => _qual_to_es q column_map)
    (quals.filter (fun q => !(ignore_columns.contains q.field_name)))
  let query0 : List (String × Json) :=
    [("query", .obj [("bool", .obj [("must", .arr must)])])]
  match aggs with
  | none =>
    match group_clauses with
    | none => .ok (.obj query0)
    | some cols =>
      .ok (.obj (dictSet query0 "aggs" (.obj [("group_buckets", .obj (groupBase cols))])))
  | some aggList => do
    let aggs_query ← buildAggsQuery aggList
    match group_clauses with
    | none =>
      let q1 :=
        if aggList.any (fun p => p.1 == "count.*") then
          dictSet query0 "track_total_hits" (.bool true)
        else query0
      .ok (.obj (dictSet q1 "aggs" (.obj aggs_query)))
    | some cols =>
      .ok (.obj (dictSet query0 "aggs"
        (.obj [("group_buckets", .obj (dictSet (groupBase cols) "aggregations" (.obj aggs_query)))])))

/-! ## The row pagination driver (`execute` in `pg_es_fdw/__init__.py`) -/

/-- A converted result row: the dict yielded to the caller. -/
abbrev Row : Type := List (String × Json)

/-- One row-scan response page: its `_scroll_id` and its `hits.hits`
(rows are kept abstract; `_convert_response_row` is not under test). -/
structure ScrollPage where
  scroll_id : String
  hits : List Json

/-- Python truthiness of `aggs or group_clauses` in `execute`:
`None` and empty containers are falsy. -/
def isAggregation (aggs : Option (List (String × AggProps)))
    (group_clauses : Option (List String)) : Bool :=
  (match aggs with | some l => !l.isEmpty | none => false)
  || (match group_clauses with | some l => !l.isEmpty | none => false)

/-- Outcome of the modelled `execute` row path. -/
inductive ExecOutcome where
  | rows (yielded : List Json) (scrollReqs : List String) (finalScrollId : Option String)
  | delegatedToAggregation
  | modelExhausted

/-- The `while True` scroll loop of `execute`: on each response the scroll
id is stored, the page's hits are yielded, and if the page is shorter than
`scroll_size` the loop returns; otherwise `client.scroll` is called with
the stored id and the next modelled response is consumed.  Returns the
yielded hits, the scroll ids passed to `client.scroll`, and the scroll id
stored when the loop ended; `none` when the modelled response list runs
out while the loop still wants another page. -/
def scrollLoop (scroll_size : Nat) : List ScrollPage → ScrollPage →
    Option (List Json × List String × String)
  | rest, resp =>
    if resp.hits.length < scroll_size then
      some (resp.hits, [], resp.scroll_id)
    else
      match rest with
      | [] => none
      | next :: rest' =>
        (scrollLoop scroll_size rest' next).map
          (fun r => (resp.hits ++ r.1, resp.scroll_id :: r.2.1, r.2.2))

/-- The row path of `execute`: after the initial search response `first`,
an empty page with no aggregation in effect returns immediately (before
any scroll id is stored); an aggregation query is delegated to
`_handle_aggregation_response`; otherwise the scroll loop runs against
the remaining modelled responses `rest`. -/
def executeModel (scroll_size : Nat) (aggs : Option (List (String × AggProps)))
    (group_clauses : Option (List String)) (first : ScrollPage)
    (rest : List ScrollPage) : ExecOutcome :=
  if first.hits.isEmpty && !(isAggregation aggs group_clauses) then
    .rows [] [] none
  else if isAggregation aggs group_clauses then
    .delegatedToAggregation
  else
    match scrollLoop scroll_size rest first with
    | some (rows, reqs, fin) => .rows rows reqs (some fin)
    | none => .modelExhausted

/-! ## The aggregation response decoder
(`_handle_aggregation_response` in `pg_es_fdw/__init__.py`) -/

/-- One composite bucket of a grouped response:
`bucket["key"]`, `bucket["doc_count"]`, and the remaining per-aggregation
entries `bucket[agg_name]` (each an object carrying a `"value"` field). -/
structure Bucket where
  key : List (String × Json)
  doc_count : Json
  fields : List (String × Json)

/-- One grouped-aggregation response page:
`response["aggregations"]["group_buckets"]["buckets"]` and the optional
`response["aggregations"]["group_buckets"]["after_key"]`. -/
structure AggPage where
  buckets : List Bucket
  after_key : Option Json

/-- The `for column in group_clauses` loop of the grouped decoder:
`result[column] = bucket["key"][column]`. -/
def groupColsRow (b : Bucket) : List String → Row → Except PyErr Row
  | [], acc => .ok acc
  | c :: cs, acc => do
    let v ← pyLookup b.key c
    groupColsRow b cs (dictSet acc c v)

/-- The `for agg_name in aggs` loop of the grouped decoder:
`count.*` is taken from `bucket["doc_count"]`, every other output from
`bucket[agg_name]["value"]`. -/
def bucketAggsRow (b : Bucket) : List (String × AggProps) → Row → Except PyErr Row
  | [], acc => .ok acc
  | (n, _) :: rest, acc =>
    if n == "count.*" then
      bucketAggsRow b rest (dictSet acc n b.doc_count)
    else do
      let o ← pyLookup b.fields n
      let v ← jsonGetField o "value"
      bucketAggsRow b rest (dictSet acc n v)

/-- The per-bucket body of the grouped decoder: group columns first, then
(when an aggregation spec is present) the aggregation outputs. -/
def decodeBucket (group_clauses : List String)
    (aggs : Option (List (String × AggProps))) (b : Bucket) : Except PyErr Row := do
  let r ← groupColsRow b group_clauses []
  match aggs with
  | none => .ok r
  | some l => bucketAggsRow b l r

/-- Descend `query["aggs"]["group_buckets"]["composite"]` and return the
composite object's fields. -/
def getComposite (query : Json) : Except PyErr (List (String × Json)) :=
  match query with
  | .obj qd => do
    let a ← pyLookup qd "aggs"
    match a with
    | .obj ad => do
      let g ← pyLookup ad "group_buckets"
      match g with
      | .obj gd => do
        let c ← pyLookup gd "composite"
        match c with
        | .obj cd => .ok cd
        | _ => .error .typeError
      | _ => .error .typeError
    | _ => .error .typeError
  | _ => .error .typeError

/-- `query["aggs"]["group_buckets"]["composite"]["after"] = ak`:
the mutation performed before re-issuing a grouped request. -/
def setAfter (query : Json) (ak : Json) : Except PyErr Json :=
  match query with
  | .obj qd => do
    let a ← pyLookup qd "aggs"
    match a with
    | .obj ad => do
      let g ← pyLookup ad "group_buckets"
      match g with
      | .obj gd => do
        let c ← pyLookup gd "composite"
        match c with
        | .obj cd =>
          .ok (.obj (dictSet qd "aggs" (.obj (dictSet ad "group_buckets"
            (.obj (dictSet gd "composite" (.obj (dictSet cd "after" ak))))))))
        | _ => .error .typeError
      | _ => .error .typeError
    | _ => .error .typeError
  | _ => .error .typeError

/-- Read back `query["aggs"]["group_buckets"]["composite"]["after"]`. -/
def getAfter (query : Json) : Except PyErr Json := do
  let cd ← getComposite query
  pyLookup cd "after"

/-- The grouped (`group_clauses is not None`) branch of
`_handle_aggregation_response`: per response page every bucket is decoded
and yielded in order; if the page carries an `after_key` it is injected
into the composite aggregation of the (mutated) query and the request is
re-issued with row-fetch size `0`, consuming the next modelled response;
absence of `after_key` terminates the loop.  Returns the yielded rows and
the `(size, body)` pairs of the re-issued search requests. -/
def _handle_aggregation_grouped (group_clauses : List String)
    (aggs : Option (List (String × AggProps))) :
    Json → AggPage → List AggPage → Except PyErr (List Row × List (Nat × Json))
  | query, page, rest => do
    let rows ← exList (decodeBucket group_clauses aggs) page.buckets
    match page.after_key with
    | none => .ok (rows, [])
    | some ak => do
      let q ← setAfter query ak
      match rest with
      | [] => .error .noMoreResponses
      | next :: rest' => do
        let r ← _handle_aggregation_grouped group_clauses aggs q next rest'
        .ok (rows ++ r.1, (0, q) :: r.2)

/-- The ungrouped response as read by the decoder:
`response["hits"]["total"]["value"]` and `response["aggregations"]`. -/
structure UngroupedResp where
  total_value : Json
  aggregations : List (String × Json)

/-- The `for agg_name in aggs` loop of the ungrouped decoder:
`count.*` is taken from the response's total-hits value, every other
output from `response["aggregations"][agg_name]["value"]`. -/
def ungroupedRow (resp : UngroupedResp) : List (String × AggProps) → Row → Except PyErr Row
  | [], acc => .ok acc
  | (n, _) :: rest, acc =>
    if n == "count.*" then
      ungroupedRow resp rest (dictSet acc n resp.total_value)
    else do
      let o ← pyLookup resp.aggregations n
      let v ← jsonGetField o "value"
      ungroupedRow resp rest (dictSet acc n v)

/-- The ungrouped (`group_clauses is None`) branch of
`_handle_aggregation_response`: exactly one row is yielded. -/
def _handle_aggregation_ungrouped (aggList : List (String × AggProps))
    (resp : UngroupedResp) : Except PyErr (List Row) :=
  (ungroupedRow resp aggList []).map (fun r => [r])

/-! ## Scan termination (`end_scan` in `pg_es_fdw/__init__.py`) -/

/-- `end_scan`: when a truthy scroll id is held, `clear_scroll` is called
(unguarded — an exception propagates to the caller, in which case the
`scroll_id` field keeps its old value because the clearing assignment
comes after the call) and only then is the field set to `None`.  The
result carries the new value of the `scroll_id` field on normal return. -/
def end_scan (scroll_id : Option String)
    (clear_scroll : String → Except PyErr Unit) : Except PyErr (Option String) :=
  match scroll_id with
  | some sid =>
    if sid == "" then .ok (some sid)
    else (clear_scroll sid).map (fun _ => none)
  | none => .ok none

/-! ## Engine-side satisfaction of compiled fragments

Modelled from the spec: the remote engine is an external collaborator, so
its boolean-query semantics is not part of the source tree.  Documents
are flat field maps; a `bool` clause with an empty clause list restricts
nothing (it matches every document), `should` requires at least one
sub-clause to match, `must`/`must_not` are conjunction/negation, `term`
is equality, `exists` is field presence, `range` compares numbers and
strings, and `wildcard` is glob matching with `*` and `?`. -/

/-- A document: a flat mapping from field names to values. -/
abbrev Doc : Type := List (String × Json)

/-- Field access on a document. -/
def docGet (doc : Doc) (f : String) : Option Json :=
  (doc.find? (fun p => p.1 == f)).map Prod.snd

mutual

/-- Structural equality of JSON values. -/
def Json.beq : Json → Json → Bool
  | .null, .null => true
  | .bool a, .bool b => a == b
  | .num a, .num b => a == b
  | .str a, .str b => a == b
  | .arr as, .arr bs => Json.beqArr as bs
  | .obj as, .obj bs => Json.beqObj as bs
  | _, _ => false

/-- Structural equality of JSON arrays. -/
def Json.beqArr : List Json → List Json → Bool
  | [], [] => true
  | a :: as, b :: bs => Json.beq a b && Json.beqArr as bs
  | _, _ => false

/-- Structural equality of JSON objects. -/
def Json.beqObj : List (String × Json) → List (String × Json) → Bool
  | [], [] => true
  | (k, v) :: as, (l, w) :: bs => k == l && Json.beq v w && Json.beqObj as bs
  | _, _ => false

end

/-- Glob matching for `wildcard` patterns: `*` matches any sequence,
`?` any single character. -/
def globMatch : List Char → List Char → Bool
  | [], [] => true
  | [], _ :: _ => false
  | '*' :: ps, [] => globMatch ps []
  | '*' :: ps, c :: s => globMatch ps (c :: s) || globMatch ('*' :: ps) s
  | p :: ps, [] => (p == '*') && globMatch ps []
  | p :: ps, c :: s => (p == c || p == '?') && globMatch ps s

/-- Non-strict comparison used by `range` bounds. -/
def jsonLe (a b : Json) : Bool :=
  match a, b with
  | .num x, .num y => x ≤ y
  | .str x, .str y => x ≤ y
  | _, _ => false

/-- Strict comparison used by `range` bounds. -/
def jsonLt (a b : Json) : Bool :=
  match a, b with
  | .num x, .num y => x < y
  | .str x, .str y => x < y
  | _, _ => false

/-- Satisfaction of the leaf fragments emitted by `_base_qual_to_es`. -/
def esMatchesLeaf (doc : Doc) (frag : Json) : Bool :=
  match frag with
  | .obj [("term", .obj [(c, v)])] =>
    match docGet doc c with
    | some w => Json.beq w v
    | none => false
  | .obj [("exists", .obj [("field", .str c)])] => (docGet doc c).isSome
  | .obj [("range", .obj [(c, .obj [(bound, v)])])] =>
    match docGet doc c with
    | some w =>
      if bound == "gt" then jsonLt v w
      else if bound == "gte" then jsonLe v w
      else if bound == "lt" then jsonLt w v
      else if bound == "lte" then jsonLe w v
      else false
    | none => false
  | .obj [("wildcard", .obj [(c, .str pat)])] =>
    match docGet doc c with
    | some (.str s) => globMatch pat.data s.data
    | _ => false
  | .obj [("match_all", .obj [])] => true
  | _ => false

/-- Satisfaction of a base fragment: a leaf or a negated leaf. -/
def esMatchesBase (doc : Doc) (frag : Json) : Bool :=
  match frag with
  | .obj [("bool", .obj [("must_not", g)])] => !(esMatchesLeaf doc g)
  | _ => esMatchesLeaf doc frag

/-- Satisfaction of a compiled qualifier fragment: a `bool` clause with an
empty clause list matches every document; a non-empty `should` requires at
least one sub-clause, a `must` requires all of them. -/
def esMatches (doc : Doc) (frag : Json) : Bool :=
  match frag with
  | .obj [("bool", .obj [("should", .arr fs)])] =>
    if fs.isEmpty then true else fs.any (esMatchesBase doc)
  | .obj [("bool", .obj [("must", .arr fs)])] => fs.all (esMatchesBase doc)
  | _ => esMatchesBase doc frag

/-! ## Side conditions under which the compiler cannot raise -/

/-- The column-renaming step of `_base_qual_to_es`:
`column_map.get(col, col)` when a map is passed. -/
def mapCol (column_map : Option (List (String × String))) (col : String) : String :=
  match column_map with
  | some m => pyGetD m col col
  | none => col

/-- A scalar compilation step cannot raise unless the operator is `~~`
applied to a non-null, non-string value. -/
def likeSafe (op : String) (v : Json) : Bool :=
  op != "~~" || (match v with | .null => true | .str _ => true | _ => false)

/-- All scalar steps of a qualifier are `likeSafe`. -/
def qualOk : MQual → Bool
  | .base _ op v => likeSafe op v
  | .list _ op _ vs => vs.all (likeSafe op)

/-- The aggregation function appears in `_PG_TO_ES_AGG_FUNCS`. -/
def aggFuncKnown (fn : String) : Bool :=
  (_PG_TO_ES_AGG_FUNCS.find? (fun p => p.1 == fn)).isSome

/-! ## Helper lemmas -/

theorem exList_ok_map {α β : Type} (f : α → Except PyErr β) (g : α → β) :
    ∀ l : List α, (∀ a ∈ l, f a = .ok (g a)) → exList f l = .ok (l.map g) := by
  intro l
  induction l with
  | nil => intro _; rfl
  | cons a l ih =>
    intro h
    have ha := h a (by simp)
    have hl := ih (fun x hx => h x (by simp [hx]))
    simp [exList, ha, hl]
    rfl

theorem exList_ok_exists {α β : Type} (f : α → Except PyErr β) :
    ∀ l : List α, (∀ a ∈ l, ∃ b, f a = .ok b) → ∃ bs, exList f l = .ok bs := by
  intro l
  induction l with
  | nil => intro _; exact ⟨[], rfl⟩
  | cons a l ih =>
    intro h
    obtain ⟨b, hb⟩ := h a (by simp)
    obtain ⟨bs, hbs⟩ := ih (fun x hx => h x (by simp [hx]))
    exact ⟨b :: bs, by simp [exList, hb, hbs]; rfl⟩

theorem exList_forall₂ {α β : Type} (f : α → Except PyErr β) :
    ∀ (l : List α) (bs : List β), exList f l = .ok bs →
      List.Forall₂ (fun a b => f a = .ok b) l bs := by
  intro l
  induction l with
  | nil =>
    intro bs h
    simp [exList] at h
    cases h
    exact .nil
  | cons a l ih =>
    intro bs h
    cases hfa : f a with
    | error e => simp [exList, hfa] at h; cases h
    | ok b =>
      cases hfl : exList f l with
      | error e =>
        simp [exList, hfa, hfl] at h
        cases h
      | ok bs' =>
        have : bs = b :: bs' := by
          simp [exList, hfa, hfl] at h
          cases h; rfl
        subst this
        exact .cons hfa (ih bs' hfl)

theorem dictSet_fresh {α : Type} (d : List (String × α)) (k : String) (v : α)
    (h : ∀ p ∈ d, p.1 ≠ k) : dictSet d k v = d ++ [(k, v)] := by
  unfold dictSet
  have : d.any (fun p => p.1 == k) = false := by
    simp only [List.any_eq_false]
    intro p hp
    simpa using h p hp
  simp [this]

theorem ok_bind {α β : Type} (x : α) (f : α → Except PyErr β) :
    (Except.ok x >>= f) = f x := rfl

theorem error_bind {α β : Type} (e : PyErr) (f : α → Except PyErr β) :
    ((Except.error e : Except PyErr α) >>= f) = Except.error e := rfl

theorem find?_append_fresh {α : Type} (d : List (String × α)) (k : String) (v : α)
    (h : ∀ p ∈ d, (p.1 == k) = false) :
    (d ++ [(k, v)]).find? (fun p => p.1 == k) = some (k, v) := by
  induction d with
  | nil => simp
  | cons p d ih =>
    have hp := h p (by simp)
    have := ih (fun q hq => h q (by simp [hq]))
    simp [List.find?, hp, this]

theorem find?_set_mem {α : Type} (d : List (String × α)) (k : String) (v : α)
    (h : d.any (fun p => p.1 == k) = true) :
    (d.map (fun p => if p.1 == k then (k, v) else p)).find? (fun p => p.1 == k)
      = some (k, v) := by
  induction d with
  | nil => simp at h
  | cons p d ih =>
    by_cases hp : p.1 = k
    · rw [List.map_cons, if_pos (by simpa using hp)]
      rw [List.find?_cons_of_pos _ (by simp)]
    · have hp' : (p.1 == k) = false := by simpa using hp
      have h' : d.any (fun p => p.1 == k) = true := by
        simpa [List.any_cons, hp'] using h
      rw [List.map_cons, if_neg (by simp [hp'])]
      rw [List.find?_cons_of_neg _ (by simp [hp'])]
      exact ih h'

theorem pyLookup_dictSet_self {α : Type} (d : List (String × α)) (k : String) (v : α) :
    pyLookup (dictSet d k v) k = .ok v := by
  unfold pyLookup dictSet
  by_cases h : d.any (fun p => p.1 == k) = true
  · rw [if_pos h, find?_set_mem d k v h]
  · have hfr : ∀ p ∈ d, (p.1 == k) = false := by
      intro p hp
      by_contra hc
      exact h (List.any_eq_true.mpr ⟨p, hp, by simpa using hc⟩)
    rw [if_neg h, find?_append_fresh d k v hfr]

theorem getComposite_inv (q : Json) (cd : List (String × Json))
    (h : getComposite q = .ok cd) :
    ∃ qd ad gd, q = .obj qd ∧ pyLookup qd "aggs" = .ok (.obj ad) ∧
      pyLookup ad "group_buckets" = .ok (.obj gd) ∧
      pyLookup gd "composite" = .ok (.obj cd) := by
  unfold getComposite at h
  split at h
  case h_2 => exact absurd h (by simp)
  case h_1 qd =>
    cases h1 : pyLookup qd "aggs" with
    | error e => rw [h1, error_bind] at h; exact absurd h (by simp)
    | ok aj =>
      rw [h1, ok_bind] at h
      split at h
      case h_2 => exact absurd h (by simp)
      case h_1 ad =>
        cases h2 : pyLookup ad "group_buckets" with
        | error e => rw [h2, error_bind] at h; exact absurd h (by simp)
        | ok gj =>
          rw [h2, ok_bind] at h
          split at h
          case h_2 => exact absurd h (by simp)
          case h_1 gd =>
            cases h3 : pyLookup gd "composite" with
            | error e => rw [h3, error_bind] at h; exact absurd h (by simp)
            | ok cj =>
              rw [h3, ok_bind] at h
              split at h
              case h_2 => exact absurd h (by simp)
              case h_1 cd' =>
                refine ⟨qd, ad, gd, rfl, h1, h2, ?_⟩
                rw [h3]
                cases h
                rfl

theorem setAfter_ok (q : Json) (cd : List (String × Json)) (a : Json)
    (h : getComposite q = .ok cd) :
    ∃ q', setAfter q a = .ok q' ∧ getComposite q' = .ok (dictSet cd "after" a) ∧
      getAfter q' = .ok a := by
  obtain ⟨qd, ad, gd, hq, h1, h2, h3⟩ := getComposite_inv q cd h
  subst hq
  refine ⟨.obj (dictSet qd "aggs" (.obj (dictSet ad "group_buckets"
    (.obj (dictSet gd "composite" (.obj (dictSet cd "after" a))))))), ?_, ?_, ?_⟩
  · simp only [setAfter, h1, h2, h3, ok_bind]
  · simp only [getComposite, pyLookup_dictSet_self, ok_bind]
  · simp only [getAfter, getComposite, pyLookup_dictSet_self, ok_bind]

theorem groupColsRow_spec (b : Bucket) (kv : String → Json) :
    ∀ (cs : List String) (acc : Row),
      (∀ c ∈ cs, pyLookup b.key c = .ok (kv c)) →
      (∀ c ∈ cs, ∀ p ∈ acc, p.1 ≠ c) →
      cs.Nodup →
      groupColsRow b cs acc = .ok (acc ++ cs.map (fun c => (c, kv c))) := by
  intro cs
  induction cs with
  | nil => intro acc _ _ _; simp [groupColsRow]
  | cons c cs ih =>
    intro acc hk hfresh hnodup
    have hkc := hk c (by simp)
    have hset : dictSet acc c (kv c) = acc ++ [(c, kv c)] :=
      dictSet_fresh acc c (kv c) (fun p hp => hfresh c (by simp) p hp)
    have hfresh' : ∀ c' ∈ cs, ∀ p ∈ acc ++ [(c, kv c)], p.1 ≠ c' := by
      intro c' hc' p hp
      rcases List.mem_append.mp hp with hpa | hpc
      · exact hfresh c' (by simp [hc']) p hpa
      · have hcnotin : c ∉ cs := (List.nodup_cons.mp hnodup).1
        simp only [List.mem_singleton] at hpc
        subst hpc
        intro hcc
        have hcc' : c = c' := hcc
        subst hcc'
        exact hcnotin hc' 
    have hrec := ih (acc ++ [(c, kv c)]) (fun c' hc' => hk c' (by simp [hc']))
      hfresh' (List.nodup_cons.mp hnodup).2
    simp only [groupColsRow, hkc, ok_bind, hset, hrec, List.map_cons]
    simp

theorem bucketAggsRow_spec (b : Bucket) (av : String → Json) :
    ∀ (aggList : List (String × AggProps)) (acc : Row),
      (∀ p ∈ aggList, p.1 ≠ "count.*" →
        ∃ o, pyLookup b.fields p.1 = .ok o ∧ jsonGetField o "value" = .ok (av p.1)) →
      (∀ p ∈ aggList, ∀ q ∈ acc, q.1 ≠ p.1) →
      (aggList.map Prod.fst).Nodup →
      bucketAggsRow b aggList acc = .ok (acc ++ aggList.map
        (fun p => (p.1, if p.1 == "count.*" then b.doc_count else av p.1))) := by
  intro aggList
  induction aggList with
  | nil => intro acc _ _ _; simp [bucketAggsRow]
  | cons p rest ih =>
    obtain ⟨n, props⟩ := p
    intro acc ha hfresh hnodup
    have hfreshn : ∀ q ∈ acc, q.1 ≠ n := fun q hq => hfresh (n, props) (by simp) q hq
    rw [List.map_cons] at hnodup
    have hnotin : n ∉ rest.map Prod.fst := (List.nodup_cons.mp hnodup).1
    have hnodup' : (rest.map Prod.fst).Nodup := (List.nodup_cons.mp hnodup).2
    have hfresh' : ∀ (val : Json), ∀ p' ∈ rest, ∀ q ∈ acc ++ [(n, val)], q.1 ≠ p'.1 := by
      intro val p' hp' q hq
      rcases List.mem_append.mp hq with hqa | hqn
      · exact hfresh p' (by simp [hp']) q hqa
      · simp only [List.mem_singleton] at hqn
        subst hqn
        intro hnn
        have hmem : p'.1 ∈ rest.map Prod.fst := List.mem_map_of_mem Prod.fst hp'
        rw [← hnn] at hmem
        exact hnotin hmem
    have ha' : ∀ p' ∈ rest, p'.1 ≠ "count.*" →
        ∃ o, pyLookup b.fields p'.1 = .ok o ∧ jsonGetField o "value" = .ok (av p'.1) :=
      fun p' hp' => ha p' (by simp [hp'])
    by_cases hn : n = "count.*"
    · have hset : dictSet acc n b.doc_count = acc ++ [(n, b.doc_count)] :=
        dictSet_fresh acc n b.doc_count hfreshn
      have hrec := ih (acc ++ [(n, b.doc_count)]) ha' (hfresh' b.doc_count) hnodup'
      have hnb : (n == "count.*") = true := by simpa using hn
      simp only [bucketAggsRow, hnb, if_true, hset, hrec, List.map_cons]
      simp [hnb]
    · obtain ⟨o, ho, hov⟩ := ha (n, props) (by simp) hn
      have hset : dictSet acc n (av n) = acc ++ [(n, av n)] :=
        dictSet_fresh acc n (av n) hfreshn
      have hrec := ih (acc ++ [(n, av n)]) ha' (hfresh' (av n)) hnodup'
      have hnb : (n == "count.*") = false := by simpa using hn
      simp only [bucketAggsRow, hnb, Bool.false_eq_true, if_false, ho, ok_bind, hov,
        hset, hrec, List.map_cons]
      simp [hnb]

theorem ungroupedRow_spec (resp : UngroupedResp) (av : String → Json) :
    ∀ (aggList : List (String × AggProps)) (acc : Row),
      (∀ p ∈ aggList, p.1 ≠ "count.*" →
        ∃ o, pyLookup resp.aggregations p.1 = .ok o ∧ jsonGetField o "value" = .ok (av p.1)) →
      (∀ p ∈ aggList, ∀ q ∈ acc, q.1 ≠ p.1) →
      (aggList.map Prod.fst).Nodup →
      ungroupedRow resp aggList acc = .ok (acc ++ aggList.map
        (fun p => (p.1, if p.1 == "count.*" then resp.total_value else av p.1))) := by
  intro aggList
  induction aggList with
  | nil => intro acc _ _ _; simp [ungroupedRow]
  | cons p rest ih =>
    obtain ⟨n, props⟩ := p
    intro acc ha hfresh hnodup
    have hfreshn : ∀ q ∈ acc, q.1 ≠ n := fun q hq => hfresh (n, props) (by simp) q hq
    rw [List.map_cons] at hnodup
    have hnotin : n ∉ rest.map Prod.fst := (List.nodup_cons.mp hnodup).1
    have hnodup' : (rest.map Prod.fst).Nodup := (List.nodup_cons.mp hnodup).2
    have hfresh' : ∀ (val : Json), ∀ p' ∈ rest, ∀ q ∈ acc ++ [(n, val)], q.1 ≠ p'.1 := by
      intro val p' hp' q hq
      rcases List.mem_append.mp hq with hqa | hqn
      · exact hfresh p' (by simp [hp']) q hqa
      · simp only [List.mem_singleton] at hqn
        subst hqn
        intro hnn
        have hmem : p'.1 ∈ rest.map Prod.fst := List.mem_map_of_mem Prod.fst hp'
        rw [← hnn] at hmem
        exact hnotin hmem
    have ha' : ∀ p' ∈ rest, p'.1 ≠ "count.*" →
        ∃ o, pyLookup resp.aggregations p'.1 = .ok o ∧ jsonGetField o "value" = .ok (av p'.1) :=
      fun p' hp' => ha p' (by simp [hp'])
    by_cases hn : n = "count.*"
    · have hset : dictSet acc n resp.total_value = acc ++ [(n, resp.total_value)] :=
        dictSet_fresh acc n resp.total_value hfreshn
      have hrec := ih (acc ++ [(n, resp.total_value)]) ha' (hfresh' resp.total_value) hnodup'
      have hnb : (n == "count.*") = true := by simpa using hn
      simp only [ungroupedRow, hnb, if_true, hset, hrec, List.map_cons]
      simp [hnb]
    · obtain ⟨o, ho, hov⟩ := ha (n, props) (by simp) hn
      have hset : dictSet acc n (av n) = acc ++ [(n, av n)] :=
        dictSet_fresh acc n (av n) hfreshn
      have hrec := ih (acc ++ [(n, av n)]) ha' (hfresh' (av n)) hnodup'
      have hnb : (n == "count.*") = false := by simpa using hn
      simp only [ungroupedRow, hnb, Bool.false_eq_true, if_false, ho, ok_bind, hov,
        hset, hrec, List.map_cons]
      simp [hnb]

theorem scrollLoop_nil (size : Nat) (resp : ScrollPage) :
    scrollLoop size [] resp =
      if resp.hits.length < size then some (resp.hits, [], resp.scroll_id)
      else none := rfl

theorem scrollLoop_cons (size : Nat) (next : ScrollPage) (rest' : List ScrollPage)
    (resp : ScrollPage) :
    scrollLoop size (next :: rest') resp =
      if resp.hits.length < size then some (resp.hits, [], resp.scroll_id)
      else (scrollLoop size rest' next).map
        (fun r => (resp.hits ++ r.1, resp.scroll_id :: r.2.1, r.2.2)) := rfl

theorem scrollLoop_spec (size : Nat) :
    ∀ (rest : List ScrollPage) (resp : ScrollPage) (rows : List Json)
      (reqs : List String) (fin : String),
      scrollLoop size rest resp = some (rows, reqs, fin) →
      ∃ (k : Nat) (mids : List ScrollPage) (lastP : ScrollPage),
        k ≤ rest.length ∧
        resp :: rest.take k = mids ++ [lastP] ∧
        rows = (mids ++ [lastP]).flatMap (fun p => p.hits) ∧
        reqs = mids.map ScrollPage.scroll_id ∧
        (∀ p ∈ mids, size ≤ p.hits.length) ∧
        lastP.hits.length < size ∧
        fin = lastP.scroll_id := by
  intro rest
  induction rest with
  | nil =>
    intro resp rows reqs fin h
    rw [scrollLoop_nil] at h
    by_cases hs : resp.hits.length < size
    · rw [if_pos hs] at h
      simp only [Option.some.injEq, Prod.mk.injEq] at h
      obtain ⟨h1, h2, h3⟩ := h
      subst h1; subst h2; subst h3
      exact ⟨0, [], resp, by simp, by simp, by simp, by simp, by simp, hs, rfl⟩
    · rw [if_neg hs] at h
      exact absurd h (by simp)
  | cons next rest ih =>
    intro resp rows reqs fin h
    rw [scrollLoop_cons] at h
    by_cases hs : resp.hits.length < size
    · rw [if_pos hs] at h
      simp only [Option.some.injEq, Prod.mk.injEq] at h
      obtain ⟨h1, h2, h3⟩ := h
      subst h1; subst h2; subst h3
      exact ⟨0, [], resp, by simp, by simp, by simp, by simp, by simp, hs, rfl⟩
    · rw [if_neg hs] at h
      cases hrec : scrollLoop size rest next with
      | none => rw [hrec] at h; exact absurd h (by simp)
      | some r =>
        obtain ⟨rows', reqs', fin'⟩ := r
        rw [hrec] at h
        simp only [Option.map_some', Option.some.injEq, Prod.mk.injEq] at h
        obtain ⟨h1, h2, h3⟩ := h
        subst h1; subst h2; subst h3
        obtain ⟨k, mids, lastP, hk, hvis, hrows, hreqs, hmids, hlast, hfin⟩ :=
          ih next rows' reqs' fin' hrec
        refine ⟨k + 1, resp :: mids, lastP, by simpa using Nat.succ_le_succ hk, ?_, ?_, ?_, ?_, hlast, hfin⟩
        · simp only [List.take_succ_cons, List.cons_append]
          rw [hvis]
        · simp only [List.cons_append, List.flatMap_cons]
          rw [hrows]
        · simp only [List.map_cons]
          rw [hreqs]
        · intro p hp
          rcases List.mem_cons.mp hp with hpr | hpm
          · subst hpr; exact Nat.le_of_not_lt hs
          · exact hmids p hpm

theorem nonempty_append_head {α : Type} (l : List α) (d : α) (extra : List α)
    (h : l ≠ []) : l ++ extra = l.headD d :: (l.tail ++ extra) := by
  cases l with
  | nil => exact absurd rfl h
  | cons x xs => simp

theorem handle_grouped_eq (groups : List String) (aggs : Option (List (String × AggProps)))
    (query : Json) (page : AggPage) (rest : List AggPage) :
    _handle_aggregation_grouped groups aggs query page rest =
      (exList (decodeBucket groups aggs) page.buckets) >>= fun rows =>
        match page.after_key with
        | none => .ok (rows, [])
        | some ak =>
          (setAfter query ak) >>= fun q =>
            match rest with
            | [] => .error .noMoreResponses
            | next :: rest' =>
              (_handle_aggregation_grouped groups aggs q next rest') >>= fun r =>
                .ok (rows ++ r.1, (0, q) :: r.2) := by
  rw [_handle_aggregation_grouped.eq_def]

theorem grouped_drain_spec (groups : List String) (aggs : Option (List (String × AggProps)))
    (df : Bucket → Row) :
    ∀ (mids : List AggPage) (lastP : AggPage) (extra : List AggPage) (query : Json)
      (cd : List (String × Json)),
      getComposite query = .ok cd →
      (∀ p ∈ mids, (p.after_key).isSome = true) →
      lastP.after_key = none →
      (∀ p ∈ mids ++ [lastP], ∀ b ∈ p.buckets, decodeBucket groups aggs b = .ok (df b)) →
      ∃ reqs,
        _handle_aggregation_grouped groups aggs query ((mids ++ [lastP]).headD lastP)
            ((mids ++ [lastP]).tail ++ extra) =
          .ok (((mids ++ [lastP]).map (fun p => p.buckets.map df)).flatten, reqs) ∧
        List.Forall₂ (fun (p : AggPage) (req : Nat × Json) =>
          req.1 = 0 ∧ ∃ a, p.after_key = some a ∧ getAfter req.2 = .ok a) mids reqs := by
  intro mids
  induction mids with
  | nil =>
    intro lastP extra query cd hcd hmid hlast hdec
    refine ⟨[], ?_, .nil⟩
    have hrows : exList (decodeBucket groups aggs) lastP.buckets = .ok (lastP.buckets.map df) :=
      exList_ok_map _ df _ (hdec lastP (by simp))
    simp only [List.nil_append, List.headD_cons, List.tail_cons]
    rw [handle_grouped_eq, hrows]
    simp only [ok_bind, hlast]
    simp
  | cons m mids' ih =>
    intro lastP extra query cd hcd hmid hlast hdec
    obtain ⟨a, ha⟩ := Option.isSome_iff_exists.mp (hmid m (by simp))
    obtain ⟨q', hq', hq'c, hq'a⟩ := setAfter_ok query cd a hcd
    obtain ⟨reqs', hrun, hfa⟩ := ih lastP extra q' (dictSet cd "after" a) hq'c
      (fun p hp => hmid p (by simp [hp])) hlast
      (fun p hp => hdec p (List.mem_cons_of_mem _ hp))
    refine ⟨(0, q') :: reqs', ?_, .cons ⟨rfl, a, ha, hq'a⟩ hfa⟩
    have hrows : exList (decodeBucket groups aggs) m.buckets = .ok (m.buckets.map df) :=
      exList_ok_map _ df _ (hdec m (by simp))
    have hsplit : (mids' ++ [lastP]) ++ extra =
        (mids' ++ [lastP]).headD lastP :: ((mids' ++ [lastP]).tail ++ extra) :=
      nonempty_append_head _ lastP extra (by simp)
    simp only [List.cons_append, List.headD_cons, List.tail_cons]
    rw [handle_grouped_eq, hrows]
    simp only [ok_bind, ha]
    rw [hq']
    simp only [ok_bind]
    rw [hsplit]
    simp only []
    rw [hrun]
    simp only [ok_bind, List.map_cons]
    simp [List.flatten_cons]

theorem base_qual_total (col op : String) (v : Json)
    (cm : Option (List (String × String))) (h : likeSafe op v = true) :
    ∃ f, _base_qual_to_es col op v cm = .ok f := by
  cases v with
  | null =>
    simp only [_base_qual_to_es]
    split
    · exact ⟨_, rfl⟩
    · split
      · exact ⟨_, rfl⟩
      · exact ⟨_, rfl⟩
  | str s =>
    simp only [_base_qual_to_es]
    split
    · exact ⟨_, rfl⟩
    · split
      · exact ⟨_, rfl⟩
      · split
        · exact ⟨_, rfl⟩
        · split
          · exact ⟨_, rfl⟩
          · exact ⟨_, rfl⟩
  | bool b =>
    simp only [_base_qual_to_es]
    split
    · exact ⟨_, rfl⟩
    · split
      · exact ⟨_, rfl⟩
      · split
        · exact ⟨_, rfl⟩
        · split
          · next hc =>
              have hop : op = "~~" := by simpa using hc
              exact absurd h (by simp [likeSafe, hop])
          · exact ⟨_, rfl⟩
  | num n =>
    simp only [_base_qual_to_es]
    split
    · exact ⟨_, rfl⟩
    · split
      · exact ⟨_, rfl⟩
      · split
        · exact ⟨_, rfl⟩
        · split
          · next hc =>
              have hop : op = "~~" := by simpa using hc
              exact absurd h (by simp [likeSafe, hop])
          · exact ⟨_, rfl⟩
  | arr elems =>
    simp only [_base_qual_to_es]
    split
    · exact ⟨_, rfl⟩
    · split
      · exact ⟨_, rfl⟩
      · split
        · exact ⟨_, rfl⟩
        · split
          · next hc =>
              have hop : op = "~~" := by simpa using hc
              exact absurd h (by simp [likeSafe, hop])
          · exact ⟨_, rfl⟩
  | obj fields =>
    simp only [_base_qual_to_es]
    split
    · exact ⟨_, rfl⟩
    · split
      · exact ⟨_, rfl⟩
      · split
        · exact ⟨_, rfl⟩
        · split
          · next hc =>
              have hop : op = "~~" := by simpa using hc
              exact absurd h (by simp [likeSafe, hop])
          · exact ⟨_, rfl⟩

theorem qual_total (q : MQual) (cm : Option (List (String × String)))
    (h : qualOk q = true) : ∃ f, _qual_to_es q cm = .ok f := by
  cases q with
  | base f op v => exact base_qual_total f op v cm (by simpa [qualOk] using h)
  | list f op isAny vs =>
    have hall : ∀ v ∈ vs, likeSafe op v = true := by
      intro v hv
      exact List.all_eq_true.mp (by simpa [qualOk] using h) v hv
    obtain ⟨frags, hfr⟩ :=
      exList_ok_exists (fun v => _base_qual_to_es f op v cm) vs
        (fun v hv => base_qual_total f op v cm (hall v hv))
    cases isAny with
    | true =>
      exact ⟨.obj [("bool", .obj [("should", .arr frags)])],
        by simp only [_qual_to_es, if_true, hfr, ok_bind]⟩
    | false =>
      exact ⟨.obj [("bool", .obj [("must", .arr frags)])],
        by simp only [_qual_to_es, Bool.false_eq_true, if_false, hfr, ok_bind]⟩

theorem buildAggsQuery_total (aggList : List (String × AggProps))
    (h : ∀ p ∈ aggList, p.1 ≠ "count.*" → aggFuncKnown p.2.function = true) :
    ∃ aq, buildAggsQuery aggList = .ok aq := by
  unfold buildAggsQuery
  apply exList_ok_exists
  intro p hp
  have hp' := List.mem_filter.mp hp
  have hne : p.1 ≠ "count.*" := by simpa using hp'.2
  have hk := h p hp'.1 hne
  unfold aggFuncKnown at hk
  cases hf : _PG_TO_ES_AGG_FUNCS.find? (fun q => q.1 == p.2.function) with
  | none => rw [hf] at hk; simp at hk
  | some r => exact ⟨_, by simp only [pyLookup, hf, ok_bind]; rfl⟩

theorem quals_to_es_total (quals : List MQual) (aggs : Option (List (String × AggProps)))
    (groups : Option (List String)) (ignore : List String)
    (cm : Option (List (String × String)))
    (hq : ∀ q ∈ quals, qualOk q = true)
    (ha : ∀ l, aggs = some l → ∀ p ∈ l, p.1 ≠ "count.*" → aggFuncKnown p.2.function = true) :
    ∃ j, quals_to_es quals aggs groups ignore cm = .ok j := by
  obtain ⟨must, hmust⟩ :=
    exList_ok_exists (fun q => _qual_to_es q cm)
      (quals.filter (fun q => !(ignore.contains q.field_name)))
      (fun q hqf => qual_total q cm (hq q (List.mem_of_mem_filter hqf)))
  unfold quals_to_es
  rw [hmust, ok_bind]
  cases aggs with
  | none => cases groups <;> exact ⟨_, rfl⟩
  | some aggList =>
    obtain ⟨aq, haq⟩ := buildAggsQuery_total aggList (ha aggList rfl)
    simp only [haq, ok_bind]
    cases groups with
    | none => exact ⟨_, rfl⟩
    | some cols => exact ⟨_, rfl⟩

/-! ## Semantics lemmas for compiled fragments -/

theorem esMatches_base_eq (col op : String) (v : Json)
    (cm : Option (List (String × String))) (doc : Doc) (frag : Json)
    (h : _base_qual_to_es col op v cm = .ok frag) :
    esMatches doc frag = esMatchesBase doc frag := by
  cases v with
  | null =>
    simp only [_base_qual_to_es] at h
    split at h
    · cases Except.ok.inj h; rfl
    · split at h
      · cases Except.ok.inj h; rfl
      · cases Except.ok.inj h; rfl
  | str s =>
    simp only [_base_qual_to_es] at h
    split at h
    · cases Except.ok.inj h; rfl
    · split at h
      · cases Except.ok.inj h; rfl
      · split at h
        · cases Except.ok.inj h; rfl
        · split at h
          · cases Except.ok.inj h; rfl
          · cases Except.ok.inj h; rfl
  | bool b =>
    simp only [_base_qual_to_es] at h
    split at h
    · cases Except.ok.inj h; rfl
    · split at h
      · cases Except.ok.inj h; rfl
      · split at h
        · cases Except.ok.inj h; rfl
        · split at h
          · exact absurd h (by simp)
          · cases Except.ok.inj h; rfl
  | num n =>
    simp only [_base_qual_to_es] at h
    split at h
    · cases Except.ok.inj h; rfl
    · split at h
      · cases Except.ok.inj h; rfl
      · split at h
        · cases Except.ok.inj h; rfl
        · split at h
          · exact absurd h (by simp)
          · cases Except.ok.inj h; rfl
  | arr elems =>
    simp only [_base_qual_to_es] at h
    split at h
    · cases Except.ok.inj h; rfl
    · split at h
      · cases Except.ok.inj h; rfl
      · split at h
        · cases Except.ok.inj h; rfl
        · split at h
          · exact absurd h (by simp)
          · cases Except.ok.inj h; rfl
  | obj fields =>
    simp only [_base_qual_to_es] at h
    split at h
    · cases Except.ok.inj h; rfl
    · split at h
      · cases Except.ok.inj h; rfl
      · split at h
        · cases Except.ok.inj h; rfl
        · split at h
          · exact absurd h (by simp)
          · cases Except.ok.inj h; rfl

theorem esMatches_should_nonempty (doc : Doc) (frags : List Json) (h : frags ≠ []) :
    esMatches doc (.obj [("bool", .obj [("should", .arr frags)])])
      = frags.any (esMatchesBase doc) := by
  cases frags with
  | nil => exact absurd rfl h
  | cons a l => rfl

theorem esMatches_must_list (doc : Doc) (frags : List Json) :
    esMatches doc (.obj [("bool", .obj [("must", .arr frags)])])
      = frags.all (esMatchesBase doc) := rfl

theorem forall₂_exists_iff {α β : Type} (R : α → β → Prop) (P : β → Prop)
    (hfun : ∀ a b b', R a b → R a b' → b = b') :
    ∀ (l : List α) (bs : List β), List.Forall₂ R l bs →
      ((∃ b ∈ bs, P b) ↔ (∃ a ∈ l, ∃ b, R a b ∧ P b)) := by
  intro l bs hf
  induction hf with
  | nil => simp
  | @cons a b l' bs' hab hrest ih =>
    constructor
    · rintro ⟨b', hb', hPb⟩
      rcases List.mem_cons.mp hb' with heq | hbs
      · subst heq
        exact ⟨a, by simp, b', hab, hPb⟩
      · obtain ⟨a', ha', b'', hr'', hP''⟩ := ih.mp ⟨b', hbs, hPb⟩
        exact ⟨a', by simp [ha'], b'', hr'', hP''⟩
    · rintro ⟨a', ha', b', hr', hP'⟩
      rcases List.mem_cons.mp ha' with heq | has
      · subst heq
        have hbb : b' = b := hfun a' b' b hr' hab
        subst hbb
        exact ⟨b', by simp, hP'⟩
      · obtain ⟨b'', hb'', hP''⟩ := ih.mpr ⟨a', has, b', hr', hP'⟩
        exact ⟨b'', by simp [hb''], hP''⟩

theorem forall₂_forall_iff {α β : Type} (R : α → β → Prop) (P : β → Prop)
    (hfun : ∀ a b b', R a b → R a b' → b = b') :
    ∀ (l : List α) (bs : List β), List.Forall₂ R l bs →
      ((∀ b ∈ bs, P b) ↔ (∀ a ∈ l, ∀ b, R a b → P b)) := by
  intro l bs hf
  induction hf with
  | nil => simp
  | @cons a b l' bs' hab hrest ih =>
    constructor
    · intro hall a' ha' b' hr'
      rcases List.mem_cons.mp ha' with heq | has
      · subst heq
        have hbb : b' = b := hfun a' b' b hr' hab
        subst hbb
        exact hall b' (by simp)
      · exact ih.mp (fun b'' hb'' => hall b'' (by simp [hb''])) a' has b' hr'
    · intro hall b' hb'
      rcases List.mem_cons.mp hb' with heq | hbs
      · subst heq
        exact hall a (by simp) b' hab
      · exact ih.mpr (fun a' ha' b'' hr'' => hall a' (by simp [ha']) b'' hr'') b' hbs

/-! ## Claim theorems -/

/-- C1: for every null-valued qualifier, operator `=` compiles to an
absence test `bool/must_not/exists`, operators `<>`/`!=` compile to an
existence test `exists`, and any other operator compiles to the
match-everything fragment `match_all`. -/
theorem C1_null_value_compilation :
    ∀ (col op : String) (cm : Option (List (String × String))),
      (op = "=" → _base_qual_to_es col op .null cm =
        .ok (.obj [("bool", .obj [("must_not",
          .obj [("exists", .obj [("field", .str (mapCol cm col))])])])])) ∧
      (op = "<>" ∨ op = "!=" → _base_qual_to_es col op .null cm =
        .ok (.obj [("exists", .obj [("field", .str (mapCol cm col))])])) ∧
      (op ≠ "=" → op ≠ "<>" → op ≠ "!=" → _base_qual_to_es col op .null cm =
        .ok (.obj [("match_all", .obj [])])) := by
  intro col op cm
  refine ⟨?_, ?_, ?_⟩
  · intro h; subst h; rfl
  · rintro (h | h) <;> subst h <;> rfl
  · intro h1 h2 h3
    have b1 : (op == "=") = false := by simpa using h1
    have b2 : (op == "<>") = false := by simpa using h2
    have b3 : (op == "!=") = false := by simpa using h3
    simp [_base_qual_to_es, b1, b2, b3]

/-- Witness for C1 at the columns and operators of the spec examples. -/
theorem C1_null_value_compilation_witness :
    _base_qual_to_es "c" "=" .null none =
      .ok (.obj [("bool", .obj [("must_not",
        .obj [("exists", .obj [("field", .str "c")])])])]) ∧
    _base_qual_to_es "c" "<>" .null none =
      .ok (.obj [("exists", .obj [("field", .str "c")])]) ∧
    _base_qual_to_es "c" "<" .null none = .ok (.obj [("match_all", .obj [])]) :=
  ⟨(C1_null_value_compilation "c" "=" none).1 rfl,
   (C1_null_value_compilation "c" "<>" none).2.1 (Or.inl rfl),
   (C1_null_value_compilation "c" "<" none).2.2 (by decide) (by decide) (by decide)⟩

/-- C8: a `~~` (LIKE) qualifier over a string pattern compiles to a
wildcard clause whose pattern is the input with every `%` turned into `*`
and every other character (in particular `_`) unchanged. -/
theorem C8_like_wildcard :
    ∀ (col : String) (cm : Option (List (String × String))) (s : String),
      _base_qual_to_es col "~~" (.str s) cm =
        .ok (.obj [("wildcard", .obj [(mapCol cm col, .str (replacePct s))])]) ∧
      (replacePct s).data.length = s.data.length ∧
      (∀ i (h : i < s.data.length),
        (replacePct s).data.get ⟨i, by simpa [replacePct] using h⟩ =
          if s.data.get ⟨i, h⟩ = '%' then '*' else s.data.get ⟨i, h⟩) := by
  intro col cm s
  refine ⟨rfl, by simp [replacePct], ?_⟩
  intro i h
  simp only [replacePct, List.get_map]
  split
  · next hc =>
      have hc' : s.data[i] = '%' := by simpa using hc
      simp [hc']
  · next hc =>
      have hc' : ¬ s.data[i] = '%' := by simpa using hc
      simp [hc']

/-- Witness for C8 on the pattern `a%b_`: `%` becomes `*`, `_` survives. -/
theorem C8_like_wildcard_witness :
    _base_qual_to_es "c" "~~" (.str "a%b_") none =
      .ok (.obj [("wildcard", .obj [("c", .str (replacePct "a%b_"))])]) ∧
    (replacePct "a%b_").data.get ⟨1, by decide⟩ = '*' ∧
    (replacePct "a%b_").data.get ⟨3, by decide⟩ = '_' := by
  refine ⟨(C8_like_wildcard "c" none "a%b_").1, ?_, ?_⟩
  · have := (C8_like_wildcard "c" none "a%b_").2.2 1 (by decide)
    simpa using this
  · have := (C8_like_wildcard "c" none "a%b_").2.2 3 (by decide)
    simpa using this

/-- C9: the assembler drops qualifiers on ignored fields and joins the
remaining compiled fragments under a top-level boolean must list; the two
concrete scenarios of the spec compile exactly as stated. -/
theorem C9_assembler_must_and_ignore :
    (∀ (quals : List MQual) (ignore : List String)
       (cm : Option (List (String × String))) (must : List Json),
      exList (fun q => _qual_to_es q cm)
          (quals.filter (fun q => !(ignore.contains q.field_name))) = .ok must →
      quals_to_es quals none none ignore cm =
        .ok (.obj [("query", .obj [("bool", .obj [("must", .arr must)])])])) ∧
    quals_to_es [.base "status" "=" (.str "open")] none none [] none =
      .ok (.obj [("query", .obj [("bool", .obj [("must",
        .arr [.obj [("term", .obj [("status", .str "open")])]])])])]) ∧
    quals_to_es [.base "age" ">=" (.num 21), .base "q" "=" (.str "hello")]
        none none ["q"] none =
      .ok (.obj [("query", .obj [("bool", .obj [("must",
        .arr [.obj [("range", .obj [("age", .obj [("gte", .num 21)])])]])])])]) := by
  refine ⟨?_, rfl, rfl⟩
  intro quals ignore cm must hm
  unfold quals_to_es
  rw [hm, ok_bind]

/-- Witness for C9's general clause at a one-qualifier list. -/
theorem C9_assembler_must_and_ignore_witness :
    quals_to_es [.base "flag" "=" .null] none none [] none =
      .ok (.obj [("query", .obj [("bool", .obj [("must",
        .arr [.obj [("bool", .obj [("must_not",
          .obj [("exists", .obj [("field", .str "flag")])])])]])])])]) :=
  C9_assembler_must_and_ignore.1 [.base "flag" "=" .null] [] none
    [.obj [("bool", .obj [("must_not", .obj [("exists", .obj [("field", .str "flag")])])])]] rfl

/-- C10: a list qualifier over an empty value sequence compiles to a
boolean clause with an empty sub-clause list: `should` for ANY and
`must` for ALL. -/
theorem C10_empty_list_qualifier :
    ∀ (f op : String) (cm : Option (List (String × String))),
      _qual_to_es (.list f op true []) cm =
        .ok (.obj [("bool", .obj [("should", .arr [])])]) ∧
      _qual_to_es (.list f op false []) cm =
        .ok (.obj [("bool", .obj [("must", .arr [])])]) :=
  fun _ _ _ => ⟨rfl, rfl⟩

/-- C4 counterexample: an aggregation spec whose function is not in the
supported table (here `median`) makes `quals_to_es` raise a `KeyError`
instead of returning a compiled document. -/
theorem C4_unknown_agg_function_raises :
    quals_to_es [] (some [("m", ⟨"median", "c"⟩)]) none [] none =
      .error (.keyError "median") := rfl

/-- C4 (amended): provided every aggregation function is one of the
supported ones and every `~~` qualifier carries a string or null value,
`quals_to_es` returns a compiled document without raising; a qualifier
with an operator outside the supported set compiles to match-everything
rather than raising. -/
theorem C4_compile_never_raises_amended :
    ∀ (quals : List MQual) (aggs : Option (List (String × AggProps)))
      (groups : Option (List String)) (ignore : List String)
      (cm : Option (List (String × String))),
      (∀ q ∈ quals, qualOk q = true) →
      (∀ l, aggs = some l → ∀ p ∈ l, p.1 ≠ "count.*" → aggFuncKnown p.2.function = true) →
      (∃ j, quals_to_es quals aggs groups ignore cm = .ok j) ∧
      (∀ (col op : String) (v : Json) (cm' : Option (List (String × String))),
        op ∉ ([">", ">=", "<", "<=", "=", "<>", "!=", "~~"] : List String) →
        _base_qual_to_es col op v cm' = .ok (.obj [("match_all", .obj [])])) := by
  intro quals aggs groups ignore cm hq ha
  refine ⟨quals_to_es_total quals aggs groups ignore cm hq ha, ?_⟩
  intro col op v cm' hop
  simp only [List.mem_cons, List.not_mem_nil, or_false] at hop
  push_neg at hop
  obtain ⟨n1, n2, n3, n4, n5, n6, n7, n8⟩ := hop
  have b1 : (">" == op) = false := beq_eq_false_iff_ne.mpr (Ne.symm n1)
  have b2 : (">=" == op) = false := beq_eq_false_iff_ne.mpr (Ne.symm n2)
  have b3 : ("<" == op) = false := beq_eq_false_iff_ne.mpr (Ne.symm n3)
  have b4 : ("<=" == op) = false := beq_eq_false_iff_ne.mpr (Ne.symm n4)
  have b5 : (op == "=") = false := beq_eq_false_iff_ne.mpr n5
  have b6 : (op == "<>") = false := beq_eq_false_iff_ne.mpr n6
  have b7 : (op == "!=") = false := beq_eq_false_iff_ne.mpr n7
  have b8 : (op == "~~") = false := beq_eq_false_iff_ne.mpr n8
  cases v <;> simp [_base_qual_to_es, _RANGE_OPS, List.find?, b1, b2, b3, b4, b5, b6, b7, b8]

/-- Witness for C4 at the operator `@@` and a small aggregation spec. -/
theorem C4_compile_never_raises_amended_witness :
    (∃ j, quals_to_es [.base "a" "@@" (.num 1)]
      (some [("cnt", ⟨"count", "f"⟩)]) none [] none = .ok j) ∧
    _base_qual_to_es "x" "@@" (.num 3) none = .ok (.obj [("match_all", .obj [])]) := by
  have h := C4_compile_never_raises_amended [.base "a" "@@" (.num 1)]
    (some [("cnt", ⟨"count", "f"⟩)]) none [] none (by decide)
    (by intro l hl; cases hl; decide)
  exact ⟨h.1, h.2 "x" "@@" (.num 3) none (by decide)⟩

/-- C5 (code bug): `end_scan` calls `clear_scroll` unguarded, so a failed
release raises to the caller — and since the clearing assignment follows
the call, the cursor field is not cleared on that path. -/
theorem C5_end_scan_release_failure_raises :
    end_scan (some "scroll-1") (fun _ => .error .transportError) =
      .error .transportError := rfl

/-- C7 counterexample: over an empty value sequence the compiled ANY
fragment is an empty `should` clause, which matches every document even
though no per-value fragment exists — so "satisfied iff at least one
per-value fragment is satisfied" fails at the empty sequence. -/
theorem C7_empty_any_counterexample :
    _qual_to_es (.list "f" "=" true []) none =
      .ok (.obj [("bool", .obj [("should", .arr [])])]) ∧
    esMatches [("a", .str "x")] (.obj [("bool", .obj [("should", .arr [])])]) = true ∧
    ([] : List Json).any (esMatchesBase [("a", .str "x")]) = false :=
  ⟨rfl, rfl, rfl⟩

/-- C7 (amended to nonempty value sequences): an ANY list qualifier
compiles to the per-value fragments under a boolean `should` and is
satisfied iff at least one per-value fragment is; an ALL list qualifier
compiles to the same fragments under `must` and is satisfied iff every
per-value fragment is. -/
theorem C7_list_qualifier_semantics :
    ∀ (f op : String) (cm : Option (List (String × String))) (vs : List Json)
      (frags : List Json) (doc : Doc),
      exList (fun v => _base_qual_to_es f op v cm) vs = .ok frags →
      vs ≠ [] →
      _qual_to_es (.list f op true vs) cm =
        .ok (.obj [("bool", .obj [("should", .arr frags)])]) ∧
      _qual_to_es (.list f op false vs) cm =
        .ok (.obj [("bool", .obj [("must", .arr frags)])]) ∧
      (esMatches doc (.obj [("bool", .obj [("should", .arr frags)])]) = true ↔
        ∃ v ∈ vs, ∃ g, _base_qual_to_es f op v cm = .ok g ∧ esMatches doc g = true) ∧
      (esMatches doc (.obj [("bool", .obj [("must", .arr frags)])]) = true ↔
        ∀ v ∈ vs, ∀ g, _base_qual_to_es f op v cm = .ok g → esMatches doc g = true) := by
  intro f op cm vs frags doc hex hne
  have hfa := exList_forall₂ _ vs frags hex
  have hfun : ∀ (v g g' : Json),
      _base_qual_to_es f op v cm = .ok g → _base_qual_to_es f op v cm = .ok g' →
      g = g' := by
    intro v g g' h1 h2
    rw [h1] at h2
    exact Except.ok.inj h2
  have hfrne : frags ≠ [] := by
    intro hnil
    subst hnil
    cases hfa
    exact hne rfl
  refine ⟨by simp only [_qual_to_es, if_true, hex, ok_bind],
    by simp only [_qual_to_es, Bool.false_eq_true, if_false, hex, ok_bind], ?_, ?_⟩
  · rw [esMatches_should_nonempty doc frags hfrne, List.any_eq_true]
    rw [forall₂_exists_iff (fun v g => _base_qual_to_es f op v cm = .ok g)
      (fun g => esMatchesBase doc g = true) hfun vs frags hfa]
    constructor
    · rintro ⟨v, hv, g, hg, hPg⟩
      exact ⟨v, hv, g, hg, by rw [esMatches_base_eq f op v cm doc g hg]; exact hPg⟩
    · rintro ⟨v, hv, g, hg, hPg⟩
      exact ⟨v, hv, g, hg, by rw [← esMatches_base_eq f op v cm doc g hg]; exact hPg⟩
  · rw [esMatches_must_list doc frags, List.all_eq_true]
    rw [forall₂_forall_iff (fun v g => _base_qual_to_es f op v cm = .ok g)
      (fun g => esMatchesBase doc g = true) hfun vs frags hfa]
    constructor
    · intro hall v hv g hg
      rw [esMatches_base_eq f op v cm doc g hg]
      exact hall v hv g hg
    · intro hall v hv g hg
      rw [← esMatches_base_eq f op v cm doc g hg]
      exact hall v hv g hg

/-- Witness for C7 at a two-value ANY qualifier. -/
theorem C7_list_qualifier_semantics_witness :
    _qual_to_es (.list "f" "=" true [.str "a", .str "b"]) none =
      .ok (.obj [("bool", .obj [("should", .arr
        [.obj [("term", .obj [("f", .str "a")])],
         .obj [("term", .obj [("f", .str "b")])]])])]) ∧
    (esMatches [("f", .str "a")] (.obj [("bool", .obj [("should", .arr
        [.obj [("term", .obj [("f", .str "a")])],
         .obj [("term", .obj [("f", .str "b")])]])])]) = true ↔
      ∃ v ∈ [Json.str "a", Json.str "b"], ∃ g,
        _base_qual_to_es "f" "=" v none = .ok g ∧
        esMatches [("f", .str "a")] g = true) := by
  have h := C7_list_qualifier_semantics "f" "=" none [.str "a", .str "b"]
    [.obj [("term", .obj [("f", .str "a")])], .obj [("term", .obj [("f", .str "b")])]]
    [("f", .str "a")] rfl (List.cons_ne_nil _ _)
  exact ⟨h.1, h.2.2.1⟩

/-- `scrollLoop` returns immediately on a page shorter than the
configured size, whatever further responses the transport would give. -/
theorem scrollLoop_short (size : Nat) (rest : List ScrollPage) (resp : ScrollPage)
    (h : resp.hits.length < size) :
    scrollLoop size rest resp = some (resp.hits, [], resp.scroll_id) := by
  cases rest with
  | nil => rw [scrollLoop_nil, if_pos h]
  | cons next rest' => rw [scrollLoop_cons, if_pos h]

/-- C3: a short page ends the scan with no further continuation request;
an empty first page with no aggregation in effect yields zero rows and
stops before a scroll id is even stored; a full first page stores the
scroll token and requests the next page with it; and along any terminating
run every continuation request follows a page of at least the configured
size, with the final short page closing the scan. -/
theorem C3_row_pagination :
    ∀ (size : Nat) (aggs : Option (List (String × AggProps)))
      (groups : Option (List String)) (first : ScrollPage) (rest : List ScrollPage),
      (isAggregation aggs groups = false → first.hits.length < size →
        executeModel size aggs groups first rest =
          .rows first.hits [] (if first.hits.isEmpty then none else some first.scroll_id)) ∧
      (isAggregation aggs groups = false → first.hits = [] →
        executeModel size aggs groups first rest = .rows [] [] none) ∧
      (∀ next rest' rows reqs fin, rest = next :: rest' →
        isAggregation aggs groups = false → size ≤ first.hits.length → first.hits ≠ [] →
        scrollLoop size rest' next = some (rows, reqs, fin) →
        executeModel size aggs groups first rest =
          .rows (first.hits ++ rows) (first.scroll_id :: reqs) (some fin)) ∧
      (∀ (rst : List ScrollPage) (resp : ScrollPage) (rows : List Json)
         (reqs : List String) (fin : String),
        scrollLoop size rst resp = some (rows, reqs, fin) →
        ∃ (k : Nat) (mids : List ScrollPage) (lastP : ScrollPage),
          k ≤ rst.length ∧
          resp :: rst.take k = mids ++ [lastP] ∧
          rows = (mids ++ [lastP]).flatMap (fun p => p.hits) ∧
          reqs = mids.map ScrollPage.scroll_id ∧
          (∀ p ∈ mids, size ≤ p.hits.length) ∧
          lastP.hits.length < size ∧
          fin = lastP.scroll_id) := by
  intro size aggs groups first rest
  refine ⟨?_, ?_, ?_, scrollLoop_spec size⟩
  · intro hagg hshort
    unfold executeModel
    rw [hagg]
    by_cases he : first.hits.isEmpty
    · have hnil : first.hits = [] := by simpa using he
      simp [he, hnil]
    · have he' : first.hits.isEmpty = false := by simpa using he
      rw [scrollLoop_short size rest first hshort]
      simp [he']
  · intro hagg hnil
    unfold executeModel
    have he : first.hits.isEmpty = true := by simp [hnil]
    rw [hagg]
    simp [he]
  · intro next rest' rows reqs fin hrest hagg hfull hne hloop
    subst hrest
    unfold executeModel
    have he : first.hits.isEmpty = false := by simpa using hne
    rw [hagg, scrollLoop_cons, if_neg (Nat.not_lt.mpr hfull), hloop]
    simp [he]

/-- Witness for C3: a full first page followed by a short page yields both
pages' rows with exactly one continuation request, and an empty first page
yields nothing. -/
theorem C3_row_pagination_witness :
    executeModel 2 none none ⟨"s0", [.num 1, .num 2]⟩ [⟨"s1", [.num 3]⟩] =
      .rows [.num 1, .num 2, .num 3] ["s0"] (some "s1") ∧
    executeModel 2 none none ⟨"e", []⟩ [] = .rows [] [] none := by
  refine ⟨?_, ?_⟩
  · have h := (C3_row_pagination 2 none none ⟨"s0", [.num 1, .num 2]⟩ [⟨"s1", [.num 3]⟩]).2.2.1
      ⟨"s1", [.num 3]⟩ [] [.num 3] [] "s1" rfl rfl (by decide) (by simp) rfl
    simpa using h
  · exact (C3_row_pagination 2 none none ⟨"e", []⟩ []).2.1 rfl rfl

/-- C6: with an aggregation spec and no grouping, the compiler attaches
one aggregation operator per output name (`avg`/`max`/`min`/`sum` to the
same-named primitive, `count` to `value_count`), excludes the output
named `count.*` from the attached tree, and sets `track_total_hits`
exactly when `count.*` is requested; the ungrouped decoder then yields
exactly one row taking `count.*` from the response's total-hit count and
every other output from the aggregation value keyed by its name. -/
theorem C6_ungrouped_aggregation :
    (pyLookup _PG_TO_ES_AGG_FUNCS "avg" = .ok (some "avg") ∧
     pyLookup _PG_TO_ES_AGG_FUNCS "max" = .ok (some "max") ∧
     pyLookup _PG_TO_ES_AGG_FUNCS "min" = .ok (some "min") ∧
     pyLookup _PG_TO_ES_AGG_FUNCS "sum" = .ok (some "sum") ∧
     pyLookup _PG_TO_ES_AGG_FUNCS "count" = .ok (some "value_count")) ∧
    (∀ (aggList : List (String × AggProps)) (fm : String → Option String),
      (∀ p ∈ aggList, p.1 ≠ "count.*" →
        pyLookup _PG_TO_ES_AGG_FUNCS p.2.function = .ok (fm p.2.function)) →
      buildAggsQuery aggList = .ok ((aggList.filter (fun p => p.1 != "count.*")).map
        (fun p => (p.1, Json.obj [(aggFuncKey (fm p.2.function),
          .obj [("field", .str p.2.column)])])))) ∧
    (∀ (aggList : List (String × AggProps)) (aq : List (String × Json)),
      buildAggsQuery aggList = .ok aq → ∀ e ∈ aq, e.1 ≠ "count.*") ∧
    (∀ (quals : List MQual) (aggList : List (String × AggProps)) (ignore : List String)
       (cm : Option (List (String × String))) (must : List Json) (aq : List (String × Json)),
      exList (fun q => _qual_to_es q cm)
          (quals.filter (fun q => !(ignore.contains q.field_name))) = .ok must →
      buildAggsQuery aggList = .ok aq →
      quals_to_es quals (some aggList) none ignore cm =
        .ok (.obj ([("query", .obj [("bool", .obj [("must", .arr must)])])] ++
          (if aggList.any (fun p => p.1 == "count.*") then
            [("track_total_hits", .bool true)] else []) ++
          [("aggs", .obj aq)]))) ∧
    (∀ (aggList : List (String × AggProps)) (resp : UngroupedResp) (av : String → Json),
      (∀ p ∈ aggList, p.1 ≠ "count.*" →
        ∃ o, pyLookup resp.aggregations p.1 = .ok o ∧ jsonGetField o "value" = .ok (av p.1)) →
      (aggList.map Prod.fst).Nodup →
      _handle_aggregation_ungrouped aggList resp =
        .ok [aggList.map (fun p =>
          (p.1, if p.1 == "count.*" then resp.total_value else av p.1))]) := by
  refine ⟨⟨rfl, rfl, rfl, rfl, rfl⟩, ?_, ?_, ?_, ?_⟩
  · intro aggList fm hfm
    unfold buildAggsQuery
    apply exList_ok_map
    intro p hp
    have hmem := List.mem_filter.mp hp
    have hne : p.1 ≠ "count.*" := by simpa using hmem.2
    have hlk := hfm p hmem.1 hne
    simp only [hlk, ok_bind]
    rfl
  · intro aggList aq haq e he
    unfold buildAggsQuery at haq
    have hfa := exList_forall₂ _ _ aq haq
    have hfun : ∀ (a : String × AggProps) (b b' : String × Json),
        (do let f ← pyLookup _PG_TO_ES_AGG_FUNCS a.2.function
            pure (a.1, Json.obj [(aggFuncKey f, Json.obj [("field", Json.str a.2.column)])]))
          = Except.ok b →
        (do let f ← pyLookup _PG_TO_ES_AGG_FUNCS a.2.function
            pure (a.1, Json.obj [(aggFuncKey f, Json.obj [("field", Json.str a.2.column)])]))
          = Except.ok b' →
        b = b' := by
      intro a b b' h1 h2
      rw [h1] at h2
      exact Except.ok.inj h2
    obtain ⟨p, hp, b, hR, hbe⟩ :=
      (forall₂_exists_iff _ (fun b => b = e) hfun _ _ hfa).mp ⟨e, he, rfl⟩
    subst hbe
    cases hf : pyLookup _PG_TO_ES_AGG_FUNCS p.2.function with
    | error er => rw [hf, error_bind] at hR; exact absurd hR (by simp)
    | ok f0 =>
      rw [hf, ok_bind] at hR
      have hb : (p.1, Json.obj [(aggFuncKey f0, Json.obj [("field", Json.str p.2.column)])])
          = b := Except.ok.inj hR
      subst hb
      have hpf := List.mem_filter.mp hp
      simpa using hpf.2
  · intro quals aggList ignore cm must aq hm haq
    unfold quals_to_es
    rw [hm, ok_bind]
    simp only [haq, ok_bind]
    by_cases hc : aggList.any (fun p => p.1 == "count.*") = true
    · simp only [hc, if_true]
      rfl
    · have hc' : aggList.any (fun p => p.1 == "count.*") = false := Bool.eq_false_iff.mpr hc
      simp only [hc', Bool.false_eq_true, if_false]
      rfl
  · intro aggList resp av hav hnodup
    unfold _handle_aggregation_ungrouped
    rw [ungroupedRow_spec resp av aggList []
      hav (fun p _ q hq => absurd hq (List.not_mem_nil q)) hnodup]
    rfl

/-- Witness for C6 at the spec scenario `{"total": sum(amount)}` plus a
`count.*` output. -/
theorem C6_ungrouped_aggregation_witness :
    quals_to_es [] (some [("total", ⟨"sum", "amount"⟩), ("count.*", ⟨"count.*", "*"⟩)])
        none [] none =
      .ok (.obj [("query", .obj [("bool", .obj [("must", .arr [])])]),
        ("track_total_hits", .bool true),
        ("aggs", .obj [("total", .obj [("sum", .obj [("field", .str "amount")])])])]) ∧
    _handle_aggregation_ungrouped
        [("total", ⟨"sum", "amount"⟩), ("count.*", ⟨"count.*", "*"⟩)]
        ⟨.num 10, [("total", .obj [("value", .num 42)])]⟩ =
      .ok [[("total", .num 42), ("count.*", .num 10)]] := by
  constructor
  · exact C6_ungrouped_aggregation.2.2.2.1 []
      [("total", ⟨"sum", "amount"⟩), ("count.*", ⟨"count.*", "*"⟩)] [] none []
      [("total", .obj [("sum", .obj [("field", .str "amount")])])] rfl rfl
  · have h := C6_ungrouped_aggregation.2.2.2.2
      [("total", ⟨"sum", "amount"⟩), ("count.*", ⟨"count.*", "*"⟩)]
      ⟨.num 10, [("total", .obj [("value", .num 42)])]⟩ (fun _ => .num 42)
      ?_ (by decide)
    · exact h
    · intro p hp hne
      simp only [List.mem_cons, List.not_mem_nil, or_false] at hp
      rcases hp with rfl | rfl
      · exact ⟨.obj [("value", .num 42)], rfl, rfl⟩
      · exact absurd rfl hne

/-- C2: the grouped decoder yields exactly one row per bucket, visiting
every bucket of every page once in delivery order; after a page it
re-issues the search with the response's `after_key` injected into the
composite aggregation's `after` field and row-fetch size `0` exactly when
an `after_key` is present, and terminates at the first response without
one.  Each decoded row maps each group column to the bucket's composite
key value, the output named `count.*` to the bucket's `doc_count`, and
every other output to the bucket's nested aggregation `value`. -/
theorem C2_grouped_aggregation_drain :
    (∀ (groups : List String) (aggs : Option (List (String × AggProps)))
       (df : Bucket → Row) (mids : List AggPage) (lastP : AggPage)
       (extra : List AggPage) (query : Json) (cd : List (String × Json)),
      getComposite query = .ok cd →
      (∀ p ∈ mids, (p.after_key).isSome = true) →
      lastP.after_key = none →
      (∀ p ∈ mids ++ [lastP], ∀ b ∈ p.buckets, decodeBucket groups aggs b = .ok (df b)) →
      ∃ reqs,
        _handle_aggregation_grouped groups aggs query ((mids ++ [lastP]).headD lastP)
            ((mids ++ [lastP]).tail ++ extra) =
          .ok (((mids ++ [lastP]).map (fun p => p.buckets.map df)).flatten, reqs) ∧
        List.Forall₂ (fun (p : AggPage) (req : Nat × Json) =>
          req.1 = 0 ∧ ∃ a, p.after_key = some a ∧ getAfter req.2 = .ok a) mids reqs) ∧
    (∀ (gs : List String) (aggList : List (String × AggProps)) (b : Bucket)
       (kv av : String → Json),
      (∀ c ∈ gs, pyLookup b.key c = .ok (kv c)) →
      (∀ p ∈ aggList, p.1 ≠ "count.*" →
        ∃ o, pyLookup b.fields p.1 = .ok o ∧ jsonGetField o "value" = .ok (av p.1)) →
      (gs ++ aggList.map Prod.fst).Nodup →
      decodeBucket gs (some aggList) b =
        .ok (gs.map (fun c => (c, kv c)) ++ aggList.map
          (fun p => (p.1, if p.1 == "count.*" then b.doc_count else av p.1)))) ∧
    (∀ (gs : List String) (b : Bucket) (kv : String → Json),
      (∀ c ∈ gs, pyLookup b.key c = .ok (kv c)) → gs.Nodup →
      decodeBucket gs none b = .ok (gs.map (fun c => (c, kv c)))) := by
  refine ⟨?_, ?_, ?_⟩
  · intro groups aggs df mids lastP extra query cd hcd hmid hlast hdec
    exact grouped_drain_spec groups aggs df mids lastP extra query cd hcd hmid hlast hdec
  · intro gs aggList b kv av hkv hav hnodup
    have hnd := List.nodup_append.mp hnodup
    have hdisj : ∀ c ∈ gs, c ∉ aggList.map Prod.fst := by
      intro c hc hcm
      exact hnd.2.2 hc hcm
    unfold decodeBucket
    rw [groupColsRow_spec b kv gs [] hkv
      (fun c _ q hq => absurd hq (List.not_mem_nil q)) hnd.1, ok_bind]
    simp only [List.nil_append]
    rw [bucketAggsRow_spec b av aggList (List.map (fun c => (c, kv c)) gs) hav
      ?fresh hnd.2.1]
    case fresh =>
      intro p hp q hq
      simp only [List.mem_map] at hq
      obtain ⟨c, hc, hqc⟩ := hq
      subst hqc
      intro hqp
      have hmem : p.1 ∈ aggList.map Prod.fst := List.mem_map_of_mem Prod.fst hp
      rw [← hqp] at hmem
      exact hdisj c hc hmem
  · intro gs b kv hkv hnodup
    unfold decodeBucket
    rw [groupColsRow_spec b kv gs [] hkv
      (fun c _ q hq => absurd hq (List.not_mem_nil q)) hnodup, ok_bind]
    simp

/-- Witness for C2 at the spec scenario: two buckets plus an `after_key`,
then one bucket without one — three rows, one continuation request with
size `0` and the token injected. -/
theorem C2_grouped_aggregation_drain_witness :
    (∃ reqs,
      _handle_aggregation_grouped ["region"] (some [("count.*", ⟨"count.*", "*"⟩)])
          (.obj [("aggs", .obj [("group_buckets", .obj [("composite",
            .obj [("size", .num 2)])])])])
          ⟨[⟨[("region", .str "a")], .num 5, []⟩, ⟨[("region", .str "b")], .num 7, []⟩],
            some (.str "k1")⟩
          [⟨[⟨[("region", .str "c")], .num 1, []⟩], none⟩] =
        .ok ([[("region", .str "a"), ("count.*", .num 5)],
              [("region", .str "b"), ("count.*", .num 7)],
              [("region", .str "c"), ("count.*", .num 1)]], reqs) ∧
      List.Forall₂ (fun (p : AggPage) (req : Nat × Json) =>
          req.1 = 0 ∧ ∃ a, p.after_key = some a ∧ getAfter req.2 = .ok a)
        [⟨[⟨[("region", .str "a")], .num 5, []⟩, ⟨[("region", .str "b")], .num 7, []⟩],
          some (.str "k1")⟩] reqs) ∧
    decodeBucket ["region"] (some [("count.*", ⟨"count.*", "*"⟩)])
        ⟨[("region", .str "a")], .num 5, []⟩ =
      .ok [("region", .str "a"), ("count.*", .num 5)] := by
  constructor
  · exact C2_grouped_aggregation_drain.1 ["region"] (some [("count.*", ⟨"count.*", "*"⟩)])
      (fun b => [("region", pyGetD b.key "region" .null), ("count.*", b.doc_count)])
      [⟨[⟨[("region", .str "a")], .num 5, []⟩, ⟨[("region", .str "b")], .num 7, []⟩],
        some (.str "k1")⟩]
      ⟨[⟨[("region", .str "c")], .num 1, []⟩], none⟩ []
      (.obj [("aggs", .obj [("group_buckets", .obj [("composite",
        .obj [("size", .num 2)])])])])
      [("size", .num 2)] rfl
      (by intro p hp
          simp only [List.mem_singleton] at hp
          subst hp
          rfl)
      rfl
      (by intro p hp b hb
          rcases List.mem_append.mp hp with h1 | h1
          · simp only [List.mem_singleton] at h1
            subst h1
            simp only [List.mem_cons, List.not_mem_nil, or_false] at hb
            rcases hb with rfl | rfl <;> rfl
          · simp only [List.mem_singleton] at h1
            subst h1
            simp only [List.mem_singleton] at hb
            subst hb
            rfl)
  · exact C2_grouped_aggregation_drain.2.1 ["region"] [("count.*", ⟨"count.*", "*"⟩)]
      ⟨[("region", .str "a")], .num 5, []⟩ (fun _ => .str "a") (fun _ => .null)
      (by intro c hc; simp only [List.mem_singleton] at hc; subst hc; rfl)
      (by intro p hp hne
          simp only [List.mem_singleton] at hp
          subst hp
          exact absurd rfl hne)
      (by decide)

end PgEsFdw
